import Mathlib

/-!
# Verification of the darshan log-reading interface (`darshan-logutils.h`)

The repository exposes a reader for a compressed, versioned binary trace-log
format.  The header `src/darshan-logutils.h` declares the public interface:

  * `typedef gzFile darshan_fd;`
  * `extern char *darshan_names[];  extern char *darshan_f_names[];`
  * `darshan_fd darshan_log_open(char *name);`
  * `int darshan_log_getjob(darshan_fd, struct darshan_job *);`
  * `int darshan_log_getfile(darshan_fd, struct darshan_job *, struct darshan_file *);`
  * `int darshan_log_getexe(darshan_fd, char *, int *);`
  * `void darshan_log_close(darshan_fd);`
  * `void darshan_log_print_version_warnings(struct darshan_job *);`

The decoder bodies are not part of the inspected sources, so the record
layouts and the decoding behaviour below are modelled from the specification
(sections 3, 4 and 6): a byte stream holding, in order, a fixed-width
version-tag prefix, the remainder of the job header, exactly
`job.fileRecordCount` file records shaped per (version, module type), and a
trailing executable-string record bounded by a fixed capture-size ceiling.
-/

namespace Darshan

/-- Error kinds of the decoder, from the specification's error model:
`FormatError` (structurally invalid bytes), `UnsupportedVersion`
(recognized-but-unhandleable version tag), `TruncatedStream` (fewer bytes
available than the layout requires), `IOError`. -/
inductive DErr where
  | FormatError
  | UnsupportedVersion
  | TruncatedStream
  | IOError
deriving DecidableEq, Repr

/-- Modelled from the spec: a `LogHandle` owns the underlying decompressed
byte stream and a read-position cursor that advances monotonically on
sequential reads; it also tracks how many file records have been consumed,
since the job's declared count — not end-of-stream — terminates iteration. -/
structure Handle where
  data : List Nat
  pos : Nat
  consumed : Nat
deriving DecidableEq, Repr

/-- A fresh handle for an open log: cursor at the start, no records consumed. -/
def mkHandle (data : List Nat) : Handle := ⟨data, 0, 0⟩

instance {ε α : Type} [DecidableEq ε] [DecidableEq α] : DecidableEq (Except ε α) := fun x y =>
  match x, y with
  | .error a, .error b =>
    if h : a = b then isTrue (by rw [h])
    else isFalse (by intro hc; injection hc; contradiction)
  | .error _, .ok _ => isFalse (fun hc => Except.noConfusion hc)
  | .ok _, .error _ => isFalse (fun hc => Except.noConfusion hc)
  | .ok a, .ok b =>
    if h : a = b then isTrue (by rw [h])
    else isFalse (by intro hc; injection hc; contradiction)

/-- Modelled from the spec: `read(handle, length)` reads exactly `length`
bytes from the current position, advancing the cursor; if fewer bytes
remain it fails with `TruncatedStream` rather than returning a short read. -/
def readBytes (h : Handle) (n : Nat) : Except DErr (List Nat × Handle) :=
  if h.pos + n ≤ h.data.length then
    .ok ((h.data.drop h.pos).take n, ⟨h.data, h.pos + n, h.consumed⟩)
  else
    .error .TruncatedStream

/-- Modelled from the spec: the version tags recorded in the Version
Compatibility Table.  The authoritative list of historical versions lives in
the missing format description, so the table holds one current tag and one
supported-legacy tag (the spec's example `"1.0"`). -/
inductive VersionTag where
  | v1_0
  | v2_00
deriving DecidableEq, Repr

/-- The ASCII bytes of a version tag's token. -/
def tagBytes : VersionTag → List Nat
  | .v1_0 => [49, 46, 48]
  | .v2_00 => [50, 46, 48, 48]

/-- The current on-disk format version of the modelled table. -/
def currentVersion : VersionTag := .v2_00

/-- Classification of a version tag, derived from the table. -/
inductive VClass where
  | current
  | supportedLegacy
  | unsupported
deriving DecidableEq, Repr

/-- Modelled from the spec: the Version Compatibility Table, static read-only
data mapping a decoded tag token to the layout variant it implies; absent
tokens have no layout. -/
def lookupTag (tok : List Nat) : Option VersionTag :=
  if tok = tagBytes .v2_00 then some .v2_00
  else if tok = tagBytes .v1_0 then some .v1_0
  else none

/-- Modelled from the spec: `classify(versionTag) -> VersionClassification`,
a pure function of the tag token; unknown tokens classify as unsupported. -/
def classify (tok : List Nat) : VClass :=
  match lookupTag tok with
  | some v => if v = currentVersion then .current else .supportedLegacy
  | none => .unsupported

/-- A byte that may appear inside a version-tag token (ASCII digit or dot). -/
def isTagByte (b : Nat) : Bool := (48 ≤ b && b ≤ 57) || b = 46

/-- Modelled from the spec: structural parse of the fixed 8-byte version-tag
prefix.  A recognized tag shape is a nonempty run of digit/dot bytes padded
with NUL bytes to width 8; anything else is structurally invalid. -/
def parseTag (bs : List Nat) : Option (List Nat) :=
  if bs.length = 8 && !(bs.takeWhile (fun b => b != 0)).isEmpty
      && (bs.takeWhile (fun b => b != 0)).all isTagByte
      && (bs.dropWhile (fun b => b != 0)).all (fun b => b = 0) then
    some (bs.takeWhile (fun b => b != 0))
  else
    none

/-- Modelled from the spec: the enumerated file-system / module types; the
actual enumeration lives in the missing format description. -/
inductive ModuleType where
  | posix
  | hdf5
deriving DecidableEq, Repr

/-- The byte tagging a file record's module type in the modelled layout. -/
def moduleByte : ModuleType → Nat
  | .posix => 1
  | .hdf5 => 2

/-- Parse a module-type tag byte; unknown bytes are structurally invalid. -/
def parseModule (b : Nat) : Option ModuleType :=
  if b = 1 then some .posix
  else if b = 2 then some .hdf5
  else none

/-- Modelled from the spec: the integer-counter name schema, keyed by
(format-version tag, module type); the concrete names stand in for the
hidden format description. -/
def schema : VersionTag → ModuleType → List String
  | .v2_00, .posix => ["CP_POSIX_READS", "CP_POSIX_WRITES", "CP_POSIX_OPENS"]
  | .v2_00, .hdf5 => ["CP_INDEP_READS", "CP_INDEP_WRITES"]
  | .v1_0, .posix => ["CP_POSIX_READS", "CP_POSIX_WRITES"]
  | .v1_0, .hdf5 => ["CP_INDEP_READS"]

/-- Modelled from the spec: the floating-counter name schema, keyed by
(format-version tag, module type). -/
def fschema : VersionTag → ModuleType → List String
  | .v2_00, .posix => ["CP_F_OPEN_TIMESTAMP", "CP_F_CLOSE_TIMESTAMP"]
  | .v2_00, .hdf5 => ["CP_F_MPI_READ_TIME"]
  | .v1_0, .posix => ["CP_F_OPEN_TIMESTAMP"]
  | .v1_0, .hdf5 => []

/-- Modelled from the spec: the decoded job record (`struct darshan_job`,
declared in the missing `darshan-log-format.h`): version tag, user and job
identifiers, start/end timestamps, process count, declared count of file
records that follow, and count of modules present. -/
structure darshan_job where
  version : VersionTag
  uid : Nat
  jobid : Nat
  start_time : Nat
  end_time : Nat
  nprocs : Nat
  fileCount : Nat
  nmods : Nat
deriving DecidableEq, Repr

/-- Modelled from the spec: the decoded per-file record (`struct
darshan_file`, declared in the missing `darshan-log-format.h`): file hash,
module type tag, and the named integer and floating counter mappings
(floating values kept as raw 64-bit payloads). -/
structure darshan_file where
  hash : Nat
  mtype : ModuleType
  counters : List (String × Nat)
  fcounters : List (String × Nat)
deriving DecidableEq, Repr

/-- Little-endian value of a byte list. -/
def leVal : List Nat → Nat
  | [] => 0
  | b :: bs => b + 256 * leVal bs

/-- Little-endian encoding of `n` into `w` bytes. -/
def encodeLE : Nat → Nat → List Nat
  | 0, _ => []
  | w + 1, n => n % 256 :: encodeLE w (n / 256)

/-- Split a byte list into `k` little-endian 64-bit values. -/
def chunks8 : Nat → List Nat → List Nat
  | 0, _ => []
  | k + 1, bs => leVal (bs.take 8) :: chunks8 k (bs.drop 8)

/-- Byte length of a file record's body (after the module-tag byte): the file
hash plus one 64-bit slot per schema counter — derived from
(version, module type), as no explicit record-length prefix exists. -/
def recordBodyLen (v : VersionTag) (m : ModuleType) : Nat :=
  8 + 8 * (schema v m).length + 8 * (fschema v m).length

/-- Decode a file record's body bytes against the (version, module) layout. -/
def parseFileBody (v : VersionTag) (m : ModuleType) (bs : List Nat) : darshan_file :=
  { hash := leVal (bs.take 8)
    mtype := m
    counters := (schema v m).zip (chunks8 (schema v m).length (bs.drop 8))
    fcounters := (fschema v m).zip
      (chunks8 (fschema v m).length ((bs.drop 8).drop (8 * (schema v m).length))) }

/-- Decode the job-header body (everything after the version-tag prefix):
seven 64-bit fields. -/
def parseJobBody (v : VersionTag) (bs : List Nat) : darshan_job :=
  { version := v
    uid := leVal (bs.take 8)
    jobid := leVal ((bs.drop 8).take 8)
    start_time := leVal ((bs.drop 16).take 8)
    end_time := leVal ((bs.drop 24).take 8)
    nprocs := leVal ((bs.drop 32).take 8)
    fileCount := leVal ((bs.drop 40).take 8)
    nmods := leVal ((bs.drop 48).take 8) }

/-- Modelled from the spec: `darshan_log_getjob` — read the fixed-size
version-tag prefix first, fail with `FormatError` if it is not a recognized
tag shape, with `UnsupportedVersion` if the token is absent from the
Version Compatibility Table, and otherwise decode the remainder of the job
header using that version's layout. -/
def darshan_log_getjob (h : Handle) : Except DErr (darshan_job × Handle) :=
  match readBytes h 8 with
  | .error e => .error e
  | .ok (tb, h1) =>
    match parseTag tb with
    | none => .error .FormatError
    | some tok =>
      match lookupTag tok with
      | none => .error .UnsupportedVersion
      | some v =>
        match readBytes h1 56 with
        | .error e => .error e
        | .ok (bb, h2) => .ok (parseJobBody v bb, h2)

/-- Modelled from the spec: `darshan_log_getfile` — return the end-of-records
sentinel (`none`) once the job's declared file-record count has been
consumed; otherwise decode exactly one file record: the module-tag byte
(`FormatError` if unrecognized) followed by the body sized per
(version, module type).  Short reads surface as `TruncatedStream`. -/
def darshan_log_getfile (h : Handle) (job : darshan_job) :
    Except DErr (Option darshan_file × Handle) :=
  if job.fileCount ≤ h.consumed then
    .ok (none, h)
  else
    match readBytes h 1 with
    | .error e => .error e
    | .ok (mb, h1) =>
      match parseModule mb.headI with
      | none => .error .FormatError
      | some m =>
        match readBytes h1 (recordBodyLen job.version m) with
        | .error e => .error e
        | .ok (bb, h2) =>
          .ok (some (parseFileBody job.version m bb), ⟨h2.data, h2.pos, h2.consumed + 1⟩)

/-- Modelled from the spec: the capture-size ceiling recorded in the format
for the executable string; its value lives in the missing format
description, so a small stand-in is used. -/
def CP_EXE_LEN : Nat := 16

/-- Modelled from the spec: `darshan_log_getexe` — decode the trailing
NUL-terminated text region of `CP_EXE_LEN + 1` bytes, setting the truncation
flag exactly when the captured text hit the capture-size ceiling. -/
def darshan_log_getexe (h : Handle) : Except DErr ((List Nat × Bool) × Handle) :=
  match readBytes h (CP_EXE_LEN + 1) with
  | .error e => .error e
  | .ok (bs, h1) =>
    let text := bs.takeWhile (fun b => b != 0)
    .ok ((text, decide (CP_EXE_LEN ≤ text.length)), h1)

/-- Modelled from the spec: `darshan_log_print_version_warnings` — a pure
function of the job record producing the finite sequence of human-readable
compatibility warnings: exactly one advisory for a supported-legacy version,
none for the current version. -/
def darshan_log_print_version_warnings (job : darshan_job) : List String :=
  match classify (tagBytes job.version) with
  | .current => []
  | .supportedLegacy =>
      ["Warning: log format version is deprecated; please regenerate with a current writer."]
  | .unsupported =>
      ["Error: log format version is unsupported."]

/-- An invocation of the warning reporter against decoder state: it consults
only the job record and passes the handle through untouched. -/
def reportVersionWarnings (h : Handle) (job : darshan_job) : List String × Handle :=
  (darshan_log_print_version_warnings job, h)

/-- Iterate `darshan_log_getfile` at most `fuel` times, collecting the
records returned before the end-of-records sentinel. -/
def readFiles (fuel : Nat) (h : Handle) (job : darshan_job) :
    Except DErr (List darshan_file × Handle) :=
  match fuel with
  | 0 => .ok ([], h)
  | n + 1 =>
    match darshan_log_getfile h job with
    | .error e => .error e
    | .ok (none, h1) => .ok ([], h1)
    | .ok (some f, h1) =>
      match readFiles n h1 job with
      | .error e => .error e
      | .ok (fs, h2) => .ok (f :: fs, h2)

/-- The full sequential protocol on one handle: job record, then the declared
number of file records, then the executable string. -/
def readAll (data : List Nat) :
    Except DErr (darshan_job × List darshan_file × (List Nat × Bool)) :=
  match darshan_log_getjob (mkHandle data) with
  | .error e => .error e
  | .ok (job, h1) =>
    match readFiles job.fileCount h1 job with
    | .error e => .error e
    | .ok (files, h2) =>
      match darshan_log_getexe h2 with
      | .error e => .error e
      | .ok (exe, _) => .ok (job, files, exe)

/-! ## The writer side: well-formed logs

Modelled from the spec's persisted-format description (§6): the encoder is
the inverse used to state "for every valid log" properties. -/

/-- The logical content of one file record as written: module type, file
hash, and the raw integer / floating counter values in schema order. -/
structure FileContent where
  module : ModuleType
  hash : Nat
  vals : List Nat
  fvals : List Nat
deriving DecidableEq, Repr

/-- The logical content of a whole log as written. -/
structure LogContent where
  version : VersionTag
  uid : Nat
  jobid : Nat
  start_time : Nat
  end_time : Nat
  nprocs : Nat
  files : List FileContent
  nmods : Nat
  exe : List Nat
deriving DecidableEq, Repr

/-- A file record's content is well formed for version `v`: counter-value
lists match the (version, module) schema lengths and all 64-bit fields fit. -/
def GoodFile (v : VersionTag) (f : FileContent) : Prop :=
  f.hash < 2 ^ 64 ∧
  f.vals.length = (schema v f.module).length ∧
  f.fvals.length = (fschema v f.module).length ∧
  (∀ x ∈ f.vals, x < 2 ^ 64) ∧
  (∀ x ∈ f.fvals, x < 2 ^ 64)

instance (v : VersionTag) (f : FileContent) : Decidable (GoodFile v f) := by
  unfold GoodFile; infer_instance

/-- A log's content is well formed: every numeric field fits in 64 bits,
every file record is well formed for the log's version, and the captured
executable text is nonzero bytes within the capture-size ceiling. -/
def GoodLog (L : LogContent) : Prop :=
  L.uid < 2 ^ 64 ∧ L.jobid < 2 ^ 64 ∧ L.start_time < 2 ^ 64 ∧ L.end_time < 2 ^ 64 ∧
  L.nprocs < 2 ^ 64 ∧ L.files.length < 2 ^ 64 ∧ L.nmods < 2 ^ 64 ∧
  (∀ f ∈ L.files, GoodFile L.version f) ∧
  L.exe.length ≤ CP_EXE_LEN ∧ (∀ b ∈ L.exe, 0 < b ∧ b < 256)

instance (L : LogContent) : Decidable (GoodLog L) := by
  unfold GoodLog; infer_instance

/-- The fixed 8-byte version-tag prefix: the token padded with NUL bytes. -/
def encodeTag (v : VersionTag) : List Nat :=
  tagBytes v ++ List.replicate (8 - (tagBytes v).length) 0

/-- The job-header body: seven 64-bit fields, file-record count included. -/
def encodeJobBody (L : LogContent) : List Nat :=
  encodeLE 8 L.uid ++ encodeLE 8 L.jobid ++ encodeLE 8 L.start_time ++
  encodeLE 8 L.end_time ++ encodeLE 8 L.nprocs ++
  encodeLE 8 L.files.length ++ encodeLE 8 L.nmods

/-- A file record's body bytes: hash, then the counter values in schema
order, then the floating payloads. -/
def encodeFileBody (f : FileContent) : List Nat :=
  encodeLE 8 f.hash ++ (f.vals.map (encodeLE 8)).flatten ++ (f.fvals.map (encodeLE 8)).flatten

/-- One encoded file record: the module-tag byte followed by the body. -/
def encodeFile (f : FileContent) : List Nat :=
  moduleByte f.module :: encodeFileBody f

/-- The concatenated encoded file records of a log. -/
def encodeFiles (fs : List FileContent) : List Nat :=
  (fs.map encodeFile).flatten

/-- The trailing executable-string region: the text NUL-padded to the
capture-size ceiling plus terminator. -/
def encodeExe (exe : List Nat) : List Nat :=
  exe ++ List.replicate (CP_EXE_LEN + 1 - exe.length) 0

/-- A whole well-formed log byte stream, in the persisted order. -/
def encodeLog (L : LogContent) : List Nat :=
  encodeTag L.version ++ encodeJobBody L ++ encodeFiles L.files ++ encodeExe L.exe

/-- The byte offset at which the file-record region of a log ends (the
declared end of the file-record region). -/
def recEnd (L : LogContent) : Nat :=
  64 + (encodeFiles L.files).length

/-- The job record that decoding a well-formed log must produce. -/
def jobOf (L : LogContent) : darshan_job :=
  ⟨L.version, L.uid, L.jobid, L.start_time, L.end_time, L.nprocs, L.files.length, L.nmods⟩

/-- The file record that decoding a well-formed file-record encoding must
produce: names zipped with values per the (version, module) schema. -/
def decodedOf (v : VersionTag) (f : FileContent) : darshan_file :=
  ⟨f.hash, f.module, (schema v f.module).zip f.vals, (fschema v f.module).zip f.fvals⟩

/-! ## The open boundary and the global counter-name arrays

These model the parts of the interface that are visible in
`src/darshan-logutils.h` itself: the handle type (line 10), the signature of
`darshan_log_open` (line 15), and the two extern name arrays (lines 12-13). -/

/-- The environment- and format-level causes that can make an open fail,
from the spec's error model for `open(path)`. -/
inductive OpenFailure where
  | notFound
  | permissionDenied
  | formatError
deriving DecidableEq, Repr

/-- What actually happened when the library tried to open a log file. -/
inductive OpenOutcome where
  | success (fd : Nat)
  | failure (why : OpenFailure)
deriving DecidableEq, Repr

/-- Modelled from the spec: the value `darshan_log_open` hands back for each
outcome.  The header declares `typedef gzFile darshan_fd` and
`darshan_fd darshan_log_open(char *name)` — the return value is a raw zlib
stream pointer and there is no error-code out-parameter, so the only channel
for signalling failure (whatever its cause, per the spec's
`open(path) -> LogHandle | fails(NotFound, PermissionDenied, FormatError)`)
is the null pointer, modelled as `none`. -/
def darshan_log_open_signal : OpenOutcome → Option Nat
  | .success fd => some fd
  | .failure _ => none

/-- Modelled from the spec: the process-wide integer counter-name array
`extern char *darshan_names[]` of the header; the concrete entries live in
the missing `darshan-logutils.c`, so representative entries stand in. -/
def darshan_names : List String :=
  ["CP_POSIX_READS", "CP_POSIX_WRITES", "CP_POSIX_OPENS", "CP_POSIX_SEEKS"]

/-- Modelled from the spec: the process-wide floating counter-name array
`extern char *darshan_f_names[]` of the header; representative entries
stand in for the hidden definition. -/
def darshan_f_names : List String :=
  ["CP_F_OPEN_TIMESTAMP", "CP_F_CLOSE_TIMESTAMP"]

/-- The integer counter-name set the public interface associates with a
given format version and module type: the header keys the array on neither,
so the association ignores both arguments. -/
def interfaceNames (v : VersionTag) (m : ModuleType) : List String :=
  match v, m with
  | _, _ => darshan_names

/-- The floating counter-name set the public interface associates with a
given format version and module type; as above, the header fixes one array. -/
def interfaceFNames (v : VersionTag) (m : ModuleType) : List String :=
  match v, m with
  | _, _ => darshan_f_names

/-- The integer counter-name set the public interface exposes for one
decoded file record. -/
def interfaceNamesOfRecord (r : darshan_file) : List String :=
  match r with
  | _ => darshan_names

/-! ## Basic lemmas about the byte-level primitives -/

theorem encodeLE_length (w n : Nat) : (encodeLE w n).length = w := by
  induction w generalizing n with
  | zero => rfl
  | succ w ih => simp [encodeLE, ih]

theorem leVal_encodeLE (w n : Nat) (h : n < 256 ^ w) : leVal (encodeLE w n) = n := by
  induction w generalizing n with
  | zero => simp at h; simp [h, encodeLE, leVal]
  | succ w ih =>
    have hlt : n / 256 < 256 ^ w := by
      rw [Nat.div_lt_iff_lt_mul (by norm_num)]
      calc n < 256 ^ (w + 1) := h
        _ = 256 ^ w * 256 := by ring
    simp [encodeLE, leVal, ih _ hlt, Nat.mod_add_div]

theorem readBytes_len (h : Handle) (n : Nat) (bs : List Nat) (h' : Handle)
    (hok : readBytes h n = .ok (bs, h')) :
    bs.length = n ∧ h'.data = h.data ∧ h'.pos = h.pos + n ∧ h'.consumed = h.consumed := by
  unfold readBytes at hok
  split at hok
  · next hle =>
    simp only [Except.ok.injEq, Prod.mk.injEq] at hok
    obtain ⟨hbs, hh⟩ := hok
    subst hbs; subst hh
    refine ⟨?_, rfl, rfl, rfl⟩
    rw [List.length_take, List.length_drop]
    omega
  · exact absurd hok (by simp)

theorem readBytes_ok (pre mid post : List Nat) (c : Nat) :
    readBytes ⟨pre ++ mid ++ post, pre.length, c⟩ mid.length =
      .ok (mid, ⟨pre ++ mid ++ post, pre.length + mid.length, c⟩) := by
  unfold readBytes
  rw [if_pos (by simp)]
  congr 1
  simp [List.append_assoc, List.drop_left, List.take_left]

theorem readBytes_short (h : Handle) (n : Nat) (hlt : h.data.length < h.pos + n) :
    readBytes h n = .error .TruncatedStream := by
  unfold readBytes
  rw [if_neg (by omega)]

theorem readBytes_take_err (D : List Nat) (t pos c n : Nat) (ht : t < pos + n) :
    readBytes ⟨D.take t, pos, c⟩ n = .error .TruncatedStream := by
  apply readBytes_short
  simp only [List.length_take]
  omega

theorem readBytes_take_ok (pre mid post : List Nat) (t c : Nat)
    (ht : pre.length + mid.length ≤ t) :
    readBytes ⟨(pre ++ mid ++ post).take t, pre.length, c⟩ mid.length =
      .ok (mid, ⟨(pre ++ mid ++ post).take t, pre.length + mid.length, c⟩) := by
  have hsplit : (pre ++ mid ++ post).take t =
      pre ++ mid ++ post.take (t - (pre.length + mid.length)) := by
    rw [List.take_append_eq_append_take, List.take_append_eq_append_take]
    rw [List.take_of_length_le (by omega), List.take_of_length_le (by omega)]
    simp [List.length_append]
  rw [hsplit]
  exact readBytes_ok pre mid _ c

/-! ## Decoding the encodings: field- and record-level round trips -/

theorem flatten_map_encodeLE_length (vs : List Nat) :
    ((vs.map (encodeLE 8)).flatten).length = 8 * vs.length := by
  induction vs with
  | nil => simp
  | cons v vs ih => simp [ih, encodeLE_length]; ring

theorem take_encodeLE_append (w n : Nat) (rest : List Nat) :
    (encodeLE w n ++ rest).take w = encodeLE w n := by
  rw [List.take_append_eq_append_take, List.take_of_length_le (by rw [encodeLE_length]),
    encodeLE_length, Nat.sub_self, List.take_zero, List.append_nil]

theorem drop_encodeLE_append (w n : Nat) (rest : List Nat) :
    (encodeLE w n ++ rest).drop w = rest := by
  rw [List.drop_append_eq_append_drop, List.drop_of_length_le (by rw [encodeLE_length]),
    encodeLE_length, Nat.sub_self, List.drop_zero, List.nil_append]

theorem chunks8_encode (vs : List Nat) (rest : List Nat) (h : ∀ x ∈ vs, x < 2 ^ 64) :
    chunks8 vs.length ((vs.map (encodeLE 8)).flatten ++ rest) = vs := by
  induction vs with
  | nil => rfl
  | cons v vs ih =>
    simp only [List.map_cons, List.flatten_cons, List.length_cons, chunks8, List.append_assoc]
    rw [take_encodeLE_append, drop_encodeLE_append]
    rw [leVal_encodeLE 8 v (by exact_mod_cast h v (by simp))]
    rw [ih (fun x hx => h x (by simp [hx]))]

theorem encodeFileBody_length (v : VersionTag) (f : FileContent) (hf : GoodFile v f) :
    (encodeFileBody f).length = recordBodyLen v f.module := by
  obtain ⟨-, hv, hfv, -, -⟩ := hf
  unfold encodeFileBody recordBodyLen
  rw [List.length_append, List.length_append, encodeLE_length,
    flatten_map_encodeLE_length, flatten_map_encodeLE_length, hv, hfv]

theorem parseModule_moduleByte (m : ModuleType) : parseModule (moduleByte m) = some m := by
  cases m <;> rfl

theorem parseFileBody_encode (v : VersionTag) (f : FileContent) (hf : GoodFile v f) :
    parseFileBody v f.module (encodeFileBody f) = decodedOf v f := by
  obtain ⟨hh, hv, hfv, hvb, hfvb⟩ := hf
  unfold parseFileBody decodedOf encodeFileBody
  rw [List.append_assoc, take_encodeLE_append, drop_encodeLE_append]
  rw [leVal_encodeLE 8 f.hash hh]
  rw [← hv, ← hfv, chunks8_encode f.vals _ hvb]
  rw [show 8 * f.vals.length = ((f.vals.map (encodeLE 8)).flatten).length from
    (flatten_map_encodeLE_length f.vals).symm]
  rw [List.drop_left]
  rw [← List.append_nil ((f.fvals.map (encodeLE 8)).flatten), chunks8_encode f.fvals [] hfvb]

theorem take8_field (a : Nat) (rest : List Nat) :
    ((encodeLE 8 a ++ rest).take 8 = encodeLE 8 a) ∧ ((encodeLE 8 a ++ rest).drop 8 = rest) :=
  ⟨take_encodeLE_append 8 a rest, drop_encodeLE_append 8 a rest⟩

theorem parseJobBody_encode (L : LogContent) (hL : GoodLog L) :
    parseJobBody L.version (encodeJobBody L) = jobOf L := by
  obtain ⟨h1, h2, h3, h4, h5, h6, h7, -, -, -⟩ := hL
  have hbs : encodeJobBody L = encodeLE 8 L.uid ++ (encodeLE 8 L.jobid ++
      (encodeLE 8 L.start_time ++ (encodeLE 8 L.end_time ++ (encodeLE 8 L.nprocs ++
      (encodeLE 8 L.files.length ++ encodeLE 8 L.nmods))))) := by
    simp [encodeJobBody, List.append_assoc]
  have d8 : (encodeJobBody L).drop 8 = encodeLE 8 L.jobid ++
      (encodeLE 8 L.start_time ++ (encodeLE 8 L.end_time ++ (encodeLE 8 L.nprocs ++
      (encodeLE 8 L.files.length ++ encodeLE 8 L.nmods)))) := by
    rw [hbs, drop_encodeLE_append]
  have d16 : (encodeJobBody L).drop 16 = encodeLE 8 L.start_time ++
      (encodeLE 8 L.end_time ++ (encodeLE 8 L.nprocs ++
      (encodeLE 8 L.files.length ++ encodeLE 8 L.nmods))) := by
    rw [show (16 : Nat) = 8 + 8 from rfl, ← List.drop_drop, d8, drop_encodeLE_append]
  have d24 : (encodeJobBody L).drop 24 = encodeLE 8 L.end_time ++ (encodeLE 8 L.nprocs ++
      (encodeLE 8 L.files.length ++ encodeLE 8 L.nmods)) := by
    rw [show (24 : Nat) = 16 + 8 from rfl, ← List.drop_drop, d16, drop_encodeLE_append]
  have d32 : (encodeJobBody L).drop 32 = encodeLE 8 L.nprocs ++
      (encodeLE 8 L.files.length ++ encodeLE 8 L.nmods) := by
    rw [show (32 : Nat) = 24 + 8 from rfl, ← List.drop_drop, d24, drop_encodeLE_append]
  have d40 : (encodeJobBody L).drop 40 = encodeLE 8 L.files.length ++ encodeLE 8 L.nmods := by
    rw [show (40 : Nat) = 32 + 8 from rfl, ← List.drop_drop, d32, drop_encodeLE_append]
  have d48 : (encodeJobBody L).drop 48 = encodeLE 8 L.nmods := by
    rw [show (48 : Nat) = 40 + 8 from rfl, ← List.drop_drop, d40, drop_encodeLE_append]
  unfold parseJobBody jobOf
  rw [d8, d16, d24, d32, d40, d48, hbs]
  rw [take_encodeLE_append, take_encodeLE_append, take_encodeLE_append, take_encodeLE_append,
    take_encodeLE_append, take_encodeLE_append]
  rw [List.take_of_length_le (by rw [encodeLE_length])]
  rw [leVal_encodeLE 8 _ h1, leVal_encodeLE 8 _ h2, leVal_encodeLE 8 _ h3,
    leVal_encodeLE 8 _ h4, leVal_encodeLE 8 _ h5, leVal_encodeLE 8 _ h6,
    leVal_encodeLE 8 _ h7]

theorem encodeTag_length (v : VersionTag) : (encodeTag v).length = 8 := by
  cases v <;> rfl

theorem parseTag_encodeTag (v : VersionTag) : parseTag (encodeTag v) = some (tagBytes v) := by
  cases v <;> rfl

theorem lookupTag_tagBytes (v : VersionTag) : lookupTag (tagBytes v) = some v := by
  cases v <;> rfl

theorem encodeJobBody_length (L : LogContent) : (encodeJobBody L).length = 56 := by
  simp [encodeJobBody, encodeLE_length]

/-- Decoding the job record of an untruncated well-formed log. -/
theorem getjob_encode_ok (L : LogContent) (hL : GoodLog L) :
    darshan_log_getjob (mkHandle (encodeLog L)) = .ok (jobOf L, ⟨encodeLog L, 64, 0⟩) := by
  have h1 : readBytes (mkHandle (encodeLog L)) 8 =
      .ok (encodeTag L.version, ⟨encodeLog L, 8, 0⟩) := by
    have h := readBytes_ok [] (encodeTag L.version)
      (encodeJobBody L ++ (encodeFiles L.files ++ encodeExe L.exe)) 0
    simpa [mkHandle, encodeLog, encodeTag_length, List.append_assoc] using h
  have h2 : readBytes (⟨encodeLog L, 8, 0⟩ : Handle) 56 =
      .ok (encodeJobBody L, ⟨encodeLog L, 64, 0⟩) := by
    have h := readBytes_ok (encodeTag L.version) (encodeJobBody L)
      (encodeFiles L.files ++ encodeExe L.exe) 0
    simpa [encodeLog, encodeTag_length, encodeJobBody_length, List.append_assoc] using h
  unfold darshan_log_getjob
  rw [h1]
  simp only [parseTag_encodeTag, lookupTag_tagBytes, h2]
  rw [parseJobBody_encode L hL]

/-- Decoding the job record still succeeds when the log is truncated no
earlier than the end of the job header (byte offset 64). -/
theorem getjob_take_ok (L : LogContent) (hL : GoodLog L) (t : Nat) (ht : 64 ≤ t) :
    darshan_log_getjob (mkHandle ((encodeLog L).take t)) =
      .ok (jobOf L, ⟨(encodeLog L).take t, 64, 0⟩) := by
  have h1 : readBytes (mkHandle ((encodeLog L).take t)) 8 =
      .ok (encodeTag L.version, ⟨(encodeLog L).take t, 8, 0⟩) := by
    have h := readBytes_take_ok [] (encodeTag L.version)
      (encodeJobBody L ++ (encodeFiles L.files ++ encodeExe L.exe)) t 0
      (by rw [encodeTag_length]; simp; omega)
    simpa [mkHandle, encodeLog, encodeTag_length, List.append_assoc] using h
  have h2 : readBytes (⟨(encodeLog L).take t, 8, 0⟩ : Handle) 56 =
      .ok (encodeJobBody L, ⟨(encodeLog L).take t, 64, 0⟩) := by
    have h := readBytes_take_ok (encodeTag L.version) (encodeJobBody L)
      (encodeFiles L.files ++ encodeExe L.exe) t 0
      (by rw [encodeTag_length, encodeJobBody_length]; omega)
    simpa [encodeLog, encodeTag_length, encodeJobBody_length, List.append_assoc] using h
  unfold darshan_log_getjob
  rw [h1]
  simp only [parseTag_encodeTag, lookupTag_tagBytes, h2]
  rw [parseJobBody_encode L hL]

/-- Decoding one file record positioned exactly at its encoding, while the
declared count has not yet been consumed. -/
theorem getfile_encode_ok (v : VersionTag) (f : FileContent) (pre post : List Nat)
    (c : Nat) (job : darshan_job) (hv : job.version = v) (hgood : GoodFile v f)
    (hc : c < job.fileCount) :
    darshan_log_getfile ⟨pre ++ encodeFile f ++ post, pre.length, c⟩ job =
      .ok (some (decodedOf v f),
        ⟨pre ++ encodeFile f ++ post, pre.length + (encodeFile f).length, c + 1⟩) := by
  subst hv
  have hbody := encodeFileBody_length job.version f hgood
  have hdata : pre ++ encodeFile f ++ post =
      pre ++ [moduleByte f.module] ++ (encodeFileBody f ++ post) := by
    simp [encodeFile, List.append_assoc]
  have h1 : readBytes ⟨pre ++ encodeFile f ++ post, pre.length, c⟩ 1 =
      .ok ([moduleByte f.module], ⟨pre ++ encodeFile f ++ post, pre.length + 1, c⟩) := by
    rw [hdata]
    exact readBytes_ok pre [moduleByte f.module] _ c
  have h2 : readBytes (⟨pre ++ encodeFile f ++ post, pre.length + 1, c⟩ : Handle)
      (recordBodyLen job.version f.module) =
      .ok (encodeFileBody f,
        ⟨pre ++ encodeFile f ++ post, pre.length + 1 + recordBodyLen job.version f.module, c⟩) := by
    have h := readBytes_ok (pre ++ [moduleByte f.module]) (encodeFileBody f) post c
    rw [hbody] at h
    rw [hdata]
    simpa [List.append_assoc, List.length_append, Nat.add_assoc] using h
  have hlen : pre.length + 1 + recordBodyLen job.version f.module =
      pre.length + (encodeFile f).length := by
    simp [encodeFile]
    omega
  unfold darshan_log_getfile
  rw [if_neg (show ¬job.fileCount ≤ c by omega)]
  rw [h1]
  simp only [List.headI, parseModule_moduleByte, h2,
    parseFileBody_encode job.version f hgood, hlen]

theorem encodeFiles_cons (f : FileContent) (fs : List FileContent) :
    encodeFiles (f :: fs) = encodeFile f ++ encodeFiles fs := by
  simp [encodeFiles]

/-- Decoding a run of file records positioned exactly at their encodings,
while the declared count is not yet exhausted: every record is produced, in
order, and the cursor ends at the end of the run. -/
theorem readFiles_encode_ok (v : VersionTag) (fs : List FileContent) (pre post : List Nat)
    (c : Nat) (job : darshan_job) (hv : job.version = v)
    (hgood : ∀ f ∈ fs, GoodFile v f) (hcle : c + fs.length ≤ job.fileCount) :
    readFiles fs.length ⟨pre ++ encodeFiles fs ++ post, pre.length, c⟩ job =
      .ok (fs.map (decodedOf v),
        ⟨pre ++ encodeFiles fs ++ post, pre.length + (encodeFiles fs).length, c + fs.length⟩) := by
  induction fs generalizing pre c with
  | nil => simp [readFiles, encodeFiles]
  | cons f rest ih =>
    have hdata : pre ++ encodeFiles (f :: rest) ++ post =
        pre ++ encodeFile f ++ (encodeFiles rest ++ post) := by
      simp [encodeFiles, List.append_assoc]
    have h1 : darshan_log_getfile ⟨pre ++ encodeFiles (f :: rest) ++ post, pre.length, c⟩ job =
        .ok (some (decodedOf v f),
          ⟨pre ++ encodeFiles (f :: rest) ++ post, pre.length + (encodeFile f).length, c + 1⟩) := by
      rw [hdata]
      exact getfile_encode_ok v f pre _ c job hv (hgood f (by simp))
        (by simp at hcle; omega)
    have h2 : readFiles rest.length
        ⟨pre ++ encodeFiles (f :: rest) ++ post, pre.length + (encodeFile f).length, c + 1⟩ job =
        .ok (rest.map (decodedOf v),
          ⟨pre ++ encodeFiles (f :: rest) ++ post,
            pre.length + (encodeFile f).length + (encodeFiles rest).length,
            c + 1 + rest.length⟩) := by
      have h := ih (pre ++ encodeFile f) (c + 1)
        (fun x hx => hgood x (by simp [hx])) (by simp at hcle ⊢; omega)
      simp only [encodeFiles_cons, List.append_assoc, List.length_append] at h ⊢
      exact h
    show readFiles (rest.length + 1) _ job = _
    unfold readFiles
    simp only [h1, h2]
    simp only [List.map_cons, Except.ok.injEq, Prod.mk.injEq, Handle.mk.injEq,
      encodeFiles_cons, List.length_append, List.length_cons, true_and]
    omega

/-- Once the declared count is consumed, `darshan_log_getfile` returns the
end-of-records sentinel without touching the stream. -/
theorem getfile_end (h : Handle) (job : darshan_job) (hc : job.fileCount ≤ h.consumed) :
    darshan_log_getfile h job = .ok (none, h) := by
  unfold darshan_log_getfile
  rw [if_pos hc]

theorem takeWhile_nonzero_append (exe : List Nat) (k : Nat) (hk : 0 < k)
    (hnz : ∀ b ∈ exe, 0 < b) :
    (exe ++ List.replicate k 0).takeWhile (fun b => b != 0) = exe := by
  induction exe with
  | nil =>
    cases k with
    | zero => omega
    | succ k => simp [List.replicate_succ]
  | cons b bs ih =>
    have hb : 0 < b := hnz b (by simp)
    simp only [List.cons_append, List.takeWhile_cons]
    rw [if_pos (by simpa using hb.ne')]
    rw [ih (fun x hx => hnz x (by simp [hx]))]

theorem encodeExe_length (exe : List Nat) (hlen : exe.length ≤ CP_EXE_LEN) :
    (encodeExe exe).length = CP_EXE_LEN + 1 := by
  unfold encodeExe CP_EXE_LEN at *
  rw [List.length_append, List.length_replicate]
  omega

/-- Decoding the trailing executable-string region of a well-formed log:
the captured text is returned and the truncation flag is the comparison of
its length against the capture-size ceiling. -/
theorem getexe_encode_ok (exe : List Nat) (pre post : List Nat) (c : Nat)
    (hlen : exe.length ≤ CP_EXE_LEN) (hnz : ∀ b ∈ exe, 0 < b) :
    darshan_log_getexe ⟨pre ++ encodeExe exe ++ post, pre.length, c⟩ =
      .ok ((exe, decide (CP_EXE_LEN ≤ exe.length)),
        ⟨pre ++ encodeExe exe ++ post, pre.length + (CP_EXE_LEN + 1), c⟩) := by
  have h1 : readBytes ⟨pre ++ encodeExe exe ++ post, pre.length, c⟩ (CP_EXE_LEN + 1) =
      .ok (encodeExe exe, ⟨pre ++ encodeExe exe ++ post, pre.length + (CP_EXE_LEN + 1), c⟩) := by
    have h := readBytes_ok pre (encodeExe exe) post c
    rw [encodeExe_length exe hlen] at h
    exact h
  unfold darshan_log_getexe
  rw [h1]
  have h2 : (encodeExe exe).takeWhile (fun b => b != 0) = exe := by
    unfold encodeExe
    exact takeWhile_nonzero_append exe _ (by unfold CP_EXE_LEN at *; omega) hnz
  simp only [h2]

/-- Decomposing a well-formed log around its file-record region. -/
theorem encodeLog_decomp (L : LogContent) :
    encodeLog L =
      (encodeTag L.version ++ encodeJobBody L) ++ encodeFiles L.files ++ encodeExe L.exe := by
  simp [encodeLog, List.append_assoc]

theorem encodeLog_header_length (L : LogContent) :
    (encodeTag L.version ++ encodeJobBody L).length = 64 := by
  rw [List.length_append, encodeTag_length, encodeJobBody_length]

/-- After the job record of a well-formed log is decoded, iterating the
file-record decoder with the declared count as fuel yields every record as
written and leaves the cursor at the start of the executable region. -/
theorem readFiles_encodeLog (L : LogContent) (hL : GoodLog L) :
    readFiles (jobOf L).fileCount (⟨encodeLog L, 64, 0⟩ : Handle) (jobOf L) =
      .ok (L.files.map (decodedOf L.version),
        ⟨encodeLog L, 64 + (encodeFiles L.files).length, L.files.length⟩) := by
  have hfiles := hL.2.2.2.2.2.2.2.1
  have h := readFiles_encode_ok L.version L.files
    (encodeTag L.version ++ encodeJobBody L) (encodeExe L.exe) 0 (jobOf L) rfl hfiles
    (by simp [jobOf])
  rw [encodeLog_header_length] at h
  rw [encodeLog_decomp]
  simpa [jobOf] using h

/-- After all file records of a well-formed log are consumed, the
executable-string reader returns the captured text with its truncation
flag. -/
theorem getexe_encodeLog (L : LogContent) (hL : GoodLog L) :
    darshan_log_getexe
      (⟨encodeLog L, 64 + (encodeFiles L.files).length, L.files.length⟩ : Handle) =
      .ok ((L.exe, decide (CP_EXE_LEN ≤ L.exe.length)),
        ⟨encodeLog L, 64 + (encodeFiles L.files).length + (CP_EXE_LEN + 1),
          L.files.length⟩) := by
  have hexelen := hL.2.2.2.2.2.2.2.2.1
  have hexenz := hL.2.2.2.2.2.2.2.2.2
  have h := getexe_encode_ok L.exe
    ((encodeTag L.version ++ encodeJobBody L) ++ encodeFiles L.files) [] L.files.length
    hexelen (fun b hb => (hexenz b hb).1)
  have hplen : ((encodeTag L.version ++ encodeJobBody L) ++ encodeFiles L.files).length =
      64 + (encodeFiles L.files).length := by
    rw [List.length_append, encodeLog_header_length]
  rw [List.append_nil, hplen] at h
  rw [encodeLog_decomp]
  simp only [List.append_assoc] at h ⊢
  exact h

/-- Decoding an entire well-formed log: the job record, every declared file
record, and the executable string, all as written. -/
theorem readAll_encode_ok (L : LogContent) (hL : GoodLog L) :
    readAll (encodeLog L) =
      .ok (jobOf L, L.files.map (decodedOf L.version),
        (L.exe, decide (CP_EXE_LEN ≤ L.exe.length))) := by
  unfold readAll
  rw [getjob_encode_ok L hL]
  simp only [readFiles_encodeLog L hL, getexe_encodeLog L hL]

theorem encodeFile_length (v : VersionTag) (f : FileContent) (hf : GoodFile v f) :
    (encodeFile f).length = 1 + recordBodyLen v f.module := by
  simp [encodeFile, encodeFileBody_length v f hf]
  omega

/-- Iterating the file-record decoder over a log truncated strictly inside
the file-record region fails with `TruncatedStream`: the declared count can
never be served by the short stream. -/
theorem readFiles_take_trunc (v : VersionTag) (fs : List FileContent) (pre post : List Nat)
    (c t : Nat) (job : darshan_job) (hv : job.version = v)
    (hgood : ∀ f ∈ fs, GoodFile v f) (hc : job.fileCount = c + fs.length)
    (ht1 : pre.length ≤ t) (ht2 : t < pre.length + (encodeFiles fs).length) :
    readFiles fs.length ⟨(pre ++ encodeFiles fs ++ post).take t, pre.length, c⟩ job =
      .error .TruncatedStream := by
  induction fs generalizing pre c with
  | nil =>
    exfalso
    simp [encodeFiles] at ht2
    omega
  | cons f rest ih =>
    have hgf : GoodFile v f := hgood f (by simp)
    have hbody := encodeFileBody_length v f hgf
    have hcount : ¬job.fileCount ≤ c := by simp at hc; omega
    have hD : pre ++ encodeFiles (f :: rest) ++ post =
        pre ++ [moduleByte f.module] ++ (encodeFileBody f ++ (encodeFiles rest ++ post)) := by
      simp [encodeFiles_cons, encodeFile, List.append_assoc]
    show readFiles (rest.length + 1) _ job = _
    unfold readFiles darshan_log_getfile
    rw [if_neg hcount]
    by_cases hA : t < pre.length + 1
    · rw [readBytes_take_err _ _ _ _ _ (by omega)]
    · push_neg at hA
      have h1 : readBytes ⟨(pre ++ encodeFiles (f :: rest) ++ post).take t, pre.length, c⟩ 1 =
          .ok ([moduleByte f.module],
            ⟨(pre ++ encodeFiles (f :: rest) ++ post).take t, pre.length + 1, c⟩) := by
        rw [hD]
        have h := readBytes_take_ok pre [moduleByte f.module]
          (encodeFileBody f ++ (encodeFiles rest ++ post)) t c (by simp; omega)
        simpa using h
      rw [h1]
      simp only [List.headI, parseModule_moduleByte, hv]
      by_cases hB : t < pre.length + 1 + recordBodyLen v f.module
      · rw [readBytes_take_err _ _ _ _ _ (by omega)]
      · push_neg at hB
        have h2 : readBytes
            (⟨(pre ++ encodeFiles (f :: rest) ++ post).take t, pre.length + 1, c⟩ : Handle)
            (recordBodyLen v f.module) =
            .ok (encodeFileBody f,
              ⟨(pre ++ encodeFiles (f :: rest) ++ post).take t,
                pre.length + 1 + recordBodyLen v f.module, c⟩) := by
          have h := readBytes_take_ok (pre ++ [moduleByte f.module]) (encodeFileBody f)
            (encodeFiles rest ++ post) t c (by simp [hbody]; omega)
          rw [hbody] at h
          rw [hD]
          simpa [List.length_append, List.append_assoc, Nat.add_assoc] using h
        rw [h2]
        have h3 : readFiles rest.length
            (⟨(pre ++ encodeFiles (f :: rest) ++ post).take t,
              pre.length + 1 + recordBodyLen v f.module, c + 1⟩ : Handle) job =
            .error .TruncatedStream := by
          have hplen : (pre ++ encodeFile f).length =
              pre.length + 1 + recordBodyLen v f.module := by
            rw [List.length_append, encodeFile_length v f hgf]
            omega
          have h := ih (pre ++ encodeFile f) (c + 1)
            (fun x hx => hgood x (by simp [hx]))
            (by simp at hc ⊢; omega)
            (by rw [hplen]; omega)
            (by
              rw [hplen]
              simp only [encodeFiles_cons, List.length_append] at ht2
              rw [encodeFile_length v f hgf] at ht2
              omega)
          rw [hplen] at h
          have hD2 : (pre ++ encodeFile f) ++ encodeFiles rest ++ post =
              pre ++ encodeFiles (f :: rest) ++ post := by
            simp [encodeFiles_cons, List.append_assoc]
          rw [hD2] at h
          exact h
        simp only [h3]

/-- Iterating the file-record decoder after the job record, over a log
truncated strictly inside the file-record region, fails with
`TruncatedStream`. -/
theorem readFiles_encodeLog_take (L : LogContent) (hL : GoodLog L) (t : Nat)
    (ht1 : 64 ≤ t) (ht2 : t < recEnd L) :
    readFiles (jobOf L).fileCount
      (⟨(encodeLog L).take t, 64, 0⟩ : Handle) (jobOf L) = .error .TruncatedStream := by
  have hfiles := hL.2.2.2.2.2.2.2.1
  have h := readFiles_take_trunc L.version L.files
    (encodeTag L.version ++ encodeJobBody L) (encodeExe L.exe) 0 t (jobOf L) rfl
    hfiles (by simp [jobOf]) (by rw [encodeLog_header_length]; omega)
    (by rw [encodeLog_header_length]; unfold recEnd at ht2; omega)
  rw [encodeLog_header_length, ← encodeLog_decomp] at h
  simpa [jobOf] using h

/-- Running the sequential protocol on a well-formed log truncated at any
byte offset strictly before the declared end of the file-record region fails
with `TruncatedStream`. -/
theorem readAll_take_trunc (L : LogContent) (hL : GoodLog L) (t : Nat)
    (ht : t < recEnd L) :
    readAll ((encodeLog L).take t) = .error .TruncatedStream := by
  by_cases h8 : t < 8
  · have hj : darshan_log_getjob (mkHandle ((encodeLog L).take t)) =
        .error .TruncatedStream := by
      unfold darshan_log_getjob mkHandle
      rw [readBytes_take_err (encodeLog L) t 0 0 8 (by omega)]
    unfold readAll
    rw [hj]
  · push_neg at h8
    by_cases h64 : t < 64
    · have h1 : readBytes (mkHandle ((encodeLog L).take t)) 8 =
          .ok (encodeTag L.version, ⟨(encodeLog L).take t, 8, 0⟩) := by
        have h := readBytes_take_ok [] (encodeTag L.version)
          (encodeJobBody L ++ (encodeFiles L.files ++ encodeExe L.exe)) t 0
          (by rw [encodeTag_length]; simpa using h8)
        simpa [mkHandle, encodeLog, encodeTag_length, List.append_assoc] using h
      have hj : darshan_log_getjob (mkHandle ((encodeLog L).take t)) =
          .error .TruncatedStream := by
        unfold darshan_log_getjob
        rw [h1]
        simp only [parseTag_encodeTag, lookupTag_tagBytes]
        rw [readBytes_take_err (encodeLog L) t 8 0 56 (by omega)]
      unfold readAll
      rw [hj]
    · push_neg at h64
      unfold readAll
      rw [getjob_take_ok L hL t h64]
      simp only [readFiles_encodeLog_take L hL t h64 ht]

theorem encodeFiles_append (a b : List FileContent) :
    encodeFiles (a ++ b) = encodeFiles a ++ encodeFiles b := by
  simp [encodeFiles]

/-- Iterating the file-record decoder with fuel `k ≤ count` from the start of
the record region decodes exactly the first `k` records. -/
theorem readFiles_encodeLog_prefix (L : LogContent) (hL : GoodLog L) (k : Nat)
    (hk : k ≤ L.files.length) :
    readFiles k (⟨encodeLog L, 64, 0⟩ : Handle) (jobOf L) =
      .ok ((L.files.take k).map (decodedOf L.version),
        ⟨encodeLog L, 64 + (encodeFiles (L.files.take k)).length, k⟩) := by
  have hfiles := hL.2.2.2.2.2.2.2.1
  have hlen : (L.files.take k).length = k := by
    rw [List.length_take]
    omega
  have h := readFiles_encode_ok L.version (L.files.take k)
    (encodeTag L.version ++ encodeJobBody L)
    (encodeFiles (L.files.drop k) ++ encodeExe L.exe) 0 (jobOf L) rfl
    (fun f hf => hfiles f (List.mem_of_mem_take hf))
    (by simp only [jobOf, hlen]; omega)
  rw [hlen, encodeLog_header_length] at h
  have hdata : (encodeTag L.version ++ encodeJobBody L) ++
      (encodeFiles (L.files.take k) ++ (encodeFiles (L.files.drop k) ++ encodeExe L.exe)) =
      encodeLog L := by
    rw [encodeLog_decomp]
    have hsplit : encodeFiles L.files =
        encodeFiles (L.files.take k) ++ encodeFiles (L.files.drop k) := by
      rw [← encodeFiles_append, List.take_append_drop]
    rw [hsplit]
    simp [List.append_assoc]
  simp only [List.append_assoc] at h hdata
  rw [hdata] at h
  simpa using h

/-- The `k`-th call of the file-record decoder (cursor after the first `k`
records, `k` below the declared count) decodes the `k`-th record. -/
theorem getfile_encodeLog_at (L : LogContent) (hL : GoodLog L) (k : Nat)
    (hk : k < L.files.length) :
    darshan_log_getfile
      (⟨encodeLog L, 64 + (encodeFiles (L.files.take k)).length, k⟩ : Handle) (jobOf L) =
      .ok (some (decodedOf L.version (L.files.get ⟨k, hk⟩)),
        ⟨encodeLog L,
          64 + (encodeFiles (L.files.take k)).length +
            (encodeFile (L.files.get ⟨k, hk⟩)).length, k + 1⟩) := by
  have hfiles := hL.2.2.2.2.2.2.2.1
  have hmem : L.files.get ⟨k, hk⟩ ∈ L.files := List.get_mem L.files k hk
  have h := getfile_encode_ok L.version (L.files.get ⟨k, hk⟩)
    ((encodeTag L.version ++ encodeJobBody L) ++ encodeFiles (L.files.take k))
    (encodeFiles (L.files.drop (k + 1)) ++ encodeExe L.exe) k (jobOf L) rfl
    (hfiles _ hmem) (by simp only [jobOf]; omega)
  have hplen : ((encodeTag L.version ++ encodeJobBody L) ++
      encodeFiles (L.files.take k)).length = 64 + (encodeFiles (L.files.take k)).length := by
    rw [List.length_append, encodeLog_header_length]
  rw [hplen] at h
  have hdata : ((encodeTag L.version ++ encodeJobBody L) ++ encodeFiles (L.files.take k)) ++
      (encodeFile (L.files.get ⟨k, hk⟩) ++
        (encodeFiles (L.files.drop (k + 1)) ++ encodeExe L.exe)) = encodeLog L := by
    rw [encodeLog_decomp]
    have hdropk : L.files.drop k = L.files.get ⟨k, hk⟩ :: L.files.drop (k + 1) := by
      rw [List.drop_eq_getElem_cons hk]
      simp
    have hsplit : encodeFiles L.files = encodeFiles (L.files.take k) ++
        (encodeFile (L.files.get ⟨k, hk⟩) ++ encodeFiles (L.files.drop (k + 1))) := by
      conv_lhs => rw [← List.take_append_drop k L.files]
      rw [encodeFiles_append, hdropk, encodeFiles_cons]
    rw [hsplit]
    simp [List.append_assoc]
  simp only [List.append_assoc] at h hdata
  rw [hdata] at h
  exact h

/-! ## Concrete well-formed logs used as evaluation witnesses -/

/-- A concrete POSIX-module file record matching the `"1.0"` schema. -/
def sampleFilePosix : FileContent := ⟨.posix, 7, [3, 4], [5]⟩

/-- A concrete HDF5-module file record matching the `"1.0"` schema. -/
def sampleFileHdf5 : FileContent := ⟨.hdf5, 9, [6], []⟩

/-- A concrete well-formed supported-legacy (`"1.0"`) log with two file
records. -/
def sampleLog : LogContent :=
  ⟨.v1_0, 10, 11, 100, 200, 4, [sampleFilePosix, sampleFileHdf5], 1, [99, 100, 101]⟩

/-- A concrete well-formed current-version (`"2.00"`) log with one file
record. -/
def sampleLogCur : LogContent :=
  ⟨.v2_00, 1, 2, 3, 4, 5, [⟨.posix, 6, [1, 2, 3], [4, 5]⟩], 1, [97]⟩

/-! ## Auxiliary parse facts -/

theorem parseTag_length (bs tok : List Nat) (h : parseTag bs = some tok) :
    bs.length = 8 := by
  unfold parseTag at h
  split at h
  · next hcond =>
    simp only [Bool.and_eq_true, decide_eq_true_eq] at hcond
    exact hcond.1.1.1
  · exact absurd h (by simp)

/-! ## The claims -/

/-- C1: for every valid log, repeated calls to `nextFile`
(`darshan_log_getfile`) return exactly `job.fileCount` file records and then
the `endOfRecords` sentinel (`none`), and never return the sentinel before
the declared count has been consumed: the declared count, not end-of-stream,
terminates the iteration. -/
theorem C1_nextFile_exact_count (L : LogContent) (hL : GoodLog L) :
    ∃ job h1 files h2,
      darshan_log_getjob (mkHandle (encodeLog L)) = .ok (job, h1) ∧
      job.fileCount = L.files.length ∧
      readFiles job.fileCount h1 job = .ok (files, h2) ∧
      files.length = job.fileCount ∧
      darshan_log_getfile h2 job = .ok (none, h2) ∧
      (∀ k, k < job.fileCount → ∃ fl hk f hk',
        readFiles k h1 job = .ok (fl, hk) ∧ fl.length = k ∧
          darshan_log_getfile hk job = .ok (some f, hk')) := by
  refine ⟨jobOf L, ⟨encodeLog L, 64, 0⟩, L.files.map (decodedOf L.version),
    ⟨encodeLog L, 64 + (encodeFiles L.files).length, L.files.length⟩,
    getjob_encode_ok L hL, rfl, readFiles_encodeLog L hL, by simp [jobOf], ?_, ?_⟩
  · exact getfile_end _ _ (by simp [jobOf])
  · intro k hkc
    have hk : k < L.files.length := by simpa [jobOf] using hkc
    exact ⟨(L.files.take k).map (decodedOf L.version),
      ⟨encodeLog L, 64 + (encodeFiles (L.files.take k)).length, k⟩,
      decodedOf L.version (L.files.get ⟨k, hk⟩), _,
      readFiles_encodeLog_prefix L hL k (le_of_lt hk),
      by rw [List.length_map, List.length_take]; omega,
      getfile_encodeLog_at L hL k hk⟩

/-- C1 witness: the property evaluated on a concrete two-record log. -/
theorem C1_nextFile_exact_count_witness :
    GoodLog sampleLog ∧
    (∃ job h1 files h2,
      darshan_log_getjob (mkHandle (encodeLog sampleLog)) = .ok (job, h1) ∧
      job.fileCount = sampleLog.files.length ∧
      readFiles job.fileCount h1 job = .ok (files, h2) ∧
      files.length = job.fileCount ∧
      darshan_log_getfile h2 job = .ok (none, h2) ∧
      (∀ k, k < job.fileCount → ∃ fl hk f hk',
        readFiles k h1 job = .ok (fl, hk) ∧ fl.length = k ∧
          darshan_log_getfile hk job = .ok (some f, hk'))) :=
  ⟨by decide, C1_nextFile_exact_count sampleLog (by decide)⟩

/-- C2: for every well-formed log truncated at any byte offset strictly
before the declared end of the file-record region, the protocol
(`getJob`/`nextFile`/`getExe` in order) fails with `TruncatedStream` and no
call returns a partially-populated record; moreover an underlying read of
length `n` yields exactly `n` bytes whenever it succeeds. -/
theorem C2_truncation_TruncatedStream (L : LogContent) (hL : GoodLog L) :
    (∀ t, t < recEnd L → readAll ((encodeLog L).take t) = .error .TruncatedStream) ∧
    (∀ (h : Handle) (n : Nat) (bs : List Nat) (h' : Handle),
      readBytes h n = .ok (bs, h') → bs.length = n) :=
  ⟨fun t ht => readAll_take_trunc L hL t ht,
   fun h n bs h' hok => (readBytes_len h n bs h' hok).1⟩

/-- C2 witness: a concrete log truncated in the middle of its file-record
region fails with `TruncatedStream`. -/
theorem C2_truncation_TruncatedStream_witness :
    GoodLog sampleLog ∧
    readAll ((encodeLog sampleLog).take 70) = .error .TruncatedStream :=
  ⟨by decide, (C2_truncation_TruncatedStream sampleLog (by decide)).1 70 (by decide)⟩

/-- C3: decoding a well-formed log of a supported-legacy version succeeds
and `versionWarnings` produces exactly one advisory message; a current
version produces zero messages; and a structurally valid tag absent from the
Version Compatibility Table makes `getJob` fail with `UnsupportedVersion`
rather than guessing a layout. -/
theorem C3_version_policy :
    (∀ L, GoodLog L → classify (tagBytes L.version) = .supportedLegacy →
      (∃ r, readAll (encodeLog L) = .ok r) ∧
      (darshan_log_print_version_warnings (jobOf L)).length = 1) ∧
    (∀ L, GoodLog L → classify (tagBytes L.version) = .current →
      (∃ r, readAll (encodeLog L) = .ok r) ∧
      darshan_log_print_version_warnings (jobOf L) = []) ∧
    (∀ bs rest tok, parseTag bs = some tok → lookupTag tok = none →
      darshan_log_getjob (mkHandle (bs ++ rest)) = .error .UnsupportedVersion) := by
  refine ⟨?_, ?_, ?_⟩
  · intro L hL hcls
    refine ⟨⟨_, readAll_encode_ok L hL⟩, ?_⟩
    unfold darshan_log_print_version_warnings
    rw [show (jobOf L).version = L.version from rfl, hcls]
    rfl
  · intro L hL hcls
    refine ⟨⟨_, readAll_encode_ok L hL⟩, ?_⟩
    unfold darshan_log_print_version_warnings
    rw [show (jobOf L).version = L.version from rfl, hcls]
  · intro bs rest tok hp hl
    have hblen : bs.length = 8 := parseTag_length bs tok hp
    have h1 : readBytes (mkHandle (bs ++ rest)) 8 = .ok (bs, ⟨bs ++ rest, 8, 0⟩) := by
      have h := readBytes_ok [] bs rest 0
      rw [hblen] at h
      simpa [mkHandle] using h
    unfold darshan_log_getjob
    rw [h1]
    simp only [hp, hl]

/-- C3 witness: the legacy branch on a concrete `"1.0"` log, the current
branch on a concrete `"2.00"` log, and the unsupported branch on the
unknown-but-well-shaped tag `"9.99"`. -/
theorem C3_version_policy_witness :
    ((∃ r, readAll (encodeLog sampleLog) = .ok r) ∧
      (darshan_log_print_version_warnings (jobOf sampleLog)).length = 1) ∧
    ((∃ r, readAll (encodeLog sampleLogCur) = .ok r) ∧
      darshan_log_print_version_warnings (jobOf sampleLogCur) = []) ∧
    darshan_log_getjob (mkHandle ([57, 46, 57, 57, 0, 0, 0, 0] ++ [])) =
      .error .UnsupportedVersion :=
  ⟨C3_version_policy.1 sampleLog (by decide) (by decide),
   C3_version_policy.2.1 sampleLogCur (by decide) (by decide),
   C3_version_policy.2.2 [57, 46, 57, 57, 0, 0, 0, 0] [] [57, 46, 57, 57]
     (by decide) (by decide)⟩

/-- C4: every file record decoded from a well-formed log carries exactly the
counter names of the schema for (format-version tag, module type): no extra
keys and no missing keys, for the integer and the floating families. -/
theorem C4_counters_match_schema (L : LogContent) (hL : GoodLog L) :
    ∃ job files exe, readAll (encodeLog L) = .ok (job, files, exe) ∧
      ∀ r ∈ files, r.counters.map Prod.fst = schema L.version r.mtype ∧
        r.fcounters.map Prod.fst = fschema L.version r.mtype := by
  refine ⟨jobOf L, L.files.map (decodedOf L.version),
    (L.exe, decide (CP_EXE_LEN ≤ L.exe.length)), readAll_encode_ok L hL, ?_⟩
  intro r hr
  rw [List.mem_map] at hr
  obtain ⟨f, hf, rfl⟩ := hr
  have hgf := hL.2.2.2.2.2.2.2.1 f hf
  unfold decodedOf
  constructor
  · exact List.map_fst_zip _ _ (le_of_eq hgf.2.1.symm)
  · exact List.map_fst_zip _ _ (le_of_eq hgf.2.2.1.symm)

/-- C4 witness: the schema property evaluated on a concrete two-record log
holding records of two different module types. -/
theorem C4_counters_match_schema_witness :
    GoodLog sampleLog ∧
    (∃ job files exe, readAll (encodeLog sampleLog) = .ok (job, files, exe) ∧
      ∀ r ∈ files, r.counters.map Prod.fst = schema sampleLog.version r.mtype ∧
        r.fcounters.map Prod.fst = fschema sampleLog.version r.mtype) :=
  ⟨by decide, C4_counters_match_schema sampleLog (by decide)⟩

/-- C5 counterexample: a well-formed two-record log truncated right after
the job header (so the byte stream ends before any of the two declared file
records): `nextFile` fails with `TruncatedStream`, not with `FormatError` as
the claim states. -/
theorem C5_not_FormatError_cex :
    darshan_log_getfile
      (⟨(encodeLog sampleLog).take 64, 64, 0⟩ : Handle) (jobOf sampleLog) =
      .error .TruncatedStream ∧
    darshan_log_getfile
      (⟨(encodeLog sampleLog).take 64, 64, 0⟩ : Handle) (jobOf sampleLog) ≠
      .error .FormatError := by
  decide

/-- C5 as amended: if the byte stream ends before `nextFile` has consumed
the file-record count declared in the job record, `nextFile` fails with
`TruncatedStream` (the truncated-log failure of the stream model) rather
than silently terminating the iteration. -/
theorem C5_truncated_fails_not_silent (L : LogContent) (hL : GoodLog L) (t : Nat)
    (ht1 : 64 ≤ t) (ht2 : t < recEnd L) :
    darshan_log_getjob (mkHandle ((encodeLog L).take t)) =
      .ok (jobOf L, ⟨(encodeLog L).take t, 64, 0⟩) ∧
    readFiles (jobOf L).fileCount
      (⟨(encodeLog L).take t, 64, 0⟩ : Handle) (jobOf L) = .error .TruncatedStream :=
  ⟨getjob_take_ok L hL t ht1, readFiles_encodeLog_take L hL t ht1 ht2⟩

/-- C5 witness: the amended property evaluated on a concrete log truncated
one byte into its first file record. -/
theorem C5_truncated_fails_not_silent_witness :
    GoodLog sampleLog ∧ 64 ≤ 65 ∧ 65 < recEnd sampleLog ∧
    (darshan_log_getjob (mkHandle ((encodeLog sampleLog).take 65)) =
        .ok (jobOf sampleLog, ⟨(encodeLog sampleLog).take 65, 64, 0⟩) ∧
      readFiles (jobOf sampleLog).fileCount
        (⟨(encodeLog sampleLog).take 65, 64, 0⟩ : Handle) (jobOf sampleLog) =
        .error .TruncatedStream) :=
  ⟨by decide, by decide, by decide,
    C5_truncated_fails_not_silent sampleLog (by decide) 65 (by decide) (by decide)⟩

/-- C6: for a log whose first 8 bytes do not form a recognized version tag,
the very first `getJob` call fails with `FormatError`, before any file
record is attempted. -/
theorem C6_corrupt_tag_FormatError (bs rest : List Nat) (hlen : bs.length = 8)
    (hbad : parseTag bs = none) :
    darshan_log_getjob (mkHandle (bs ++ rest)) = .error .FormatError := by
  have h1 : readBytes (mkHandle (bs ++ rest)) 8 = .ok (bs, ⟨bs ++ rest, 8, 0⟩) := by
    have h := readBytes_ok [] bs rest 0
    rw [hlen] at h
    simpa [mkHandle] using h
  unfold darshan_log_getjob
  rw [h1]
  simp only [hbad]

/-- C6 witness: eight `'X'` bytes are not a recognized tag and `getJob`
fails with `FormatError` on them. -/
theorem C6_corrupt_tag_FormatError_witness :
    ([88, 88, 88, 88, 88, 88, 88, 88] : List Nat).length = 8 ∧
    parseTag [88, 88, 88, 88, 88, 88, 88, 88] = none ∧
    darshan_log_getjob (mkHandle ([88, 88, 88, 88, 88, 88, 88, 88] ++ [])) =
      .error .FormatError :=
  ⟨rfl, by decide, C6_corrupt_tag_FormatError [88, 88, 88, 88, 88, 88, 88, 88] [] rfl
    (by decide)⟩

/-- C7: `getExe` (`darshan_log_getexe`), called after all file records are
consumed, returns the captured command-line text, and its truncation flag is
set exactly when the captured text hit the capture-size ceiling recorded in
the format. -/
theorem C7_getexe_text_and_flag (L : LogContent) (hL : GoodLog L) :
    readFiles (jobOf L).fileCount (⟨encodeLog L, 64, 0⟩ : Handle) (jobOf L) =
      .ok (L.files.map (decodedOf L.version),
        ⟨encodeLog L, 64 + (encodeFiles L.files).length, L.files.length⟩) ∧
    ∃ h3, darshan_log_getexe
        (⟨encodeLog L, 64 + (encodeFiles L.files).length, L.files.length⟩ : Handle) =
        .ok ((L.exe, decide (CP_EXE_LEN ≤ L.exe.length)), h3) ∧
      (decide (CP_EXE_LEN ≤ L.exe.length) = true ↔ L.exe.length = CP_EXE_LEN) := by
  refine ⟨readFiles_encodeLog L hL, _, getexe_encodeLog L hL, ?_⟩
  have hle := hL.2.2.2.2.2.2.2.2.1
  simp only [decide_eq_true_eq]
  unfold CP_EXE_LEN at *
  omega

/-- C7 witness: the executable-string property evaluated on a concrete
one-record current-version log. -/
theorem C7_getexe_text_and_flag_witness :
    GoodLog sampleLogCur ∧
    (readFiles (jobOf sampleLogCur).fileCount
        (⟨encodeLog sampleLogCur, 64, 0⟩ : Handle) (jobOf sampleLogCur) =
      .ok (sampleLogCur.files.map (decodedOf sampleLogCur.version),
        ⟨encodeLog sampleLogCur, 64 + (encodeFiles sampleLogCur.files).length,
          sampleLogCur.files.length⟩) ∧
    ∃ h3, darshan_log_getexe
        (⟨encodeLog sampleLogCur, 64 + (encodeFiles sampleLogCur.files).length,
          sampleLogCur.files.length⟩ : Handle) =
        .ok ((sampleLogCur.exe, decide (CP_EXE_LEN ≤ sampleLogCur.exe.length)), h3) ∧
      (decide (CP_EXE_LEN ≤ sampleLogCur.exe.length) = true ↔
        sampleLogCur.exe.length = CP_EXE_LEN)) :=
  ⟨by decide, C7_getexe_text_and_flag sampleLogCur (by decide)⟩

/-- C8: the version-warning reporter is a pure function of the job record:
its message sequence is the same whatever the decoder state it is invoked
against, it never mutates that state, and it is the finite list computed by
`darshan_log_print_version_warnings`. -/
theorem C8_versionWarnings_pure (h h' : Handle) (job : darshan_job) :
    (reportVersionWarnings h job).1 = (reportVersionWarnings h' job).1 ∧
    (reportVersionWarnings h job).2 = h ∧
    (reportVersionWarnings h job).1 = darshan_log_print_version_warnings job :=
  ⟨rfl, rfl, rfl⟩

/-- C9: `darshan_log_open` signals every failure only through the returned
handle value: whatever the cause (not found, permission denied, bad format),
the caller sees the same null handle, so the causes are indistinguishable at
the open boundary. -/
theorem C9_open_failures_indistinguishable :
    (∀ c1 c2 : OpenFailure,
      darshan_log_open_signal (.failure c1) = darshan_log_open_signal (.failure c2)) ∧
    (∀ c : OpenFailure, darshan_log_open_signal (.failure c) = none) ∧
    (∀ fd : Nat, darshan_log_open_signal (.success fd) = some fd) :=
  ⟨fun _ _ => rfl, fun _ => rfl, fun _ => rfl⟩

/-- C10: the public interface exposes the integer and floating counter-name
sets as two process-wide constant arrays, identical for every decoded file
record and independent of format version and module type. -/
theorem C10_global_name_arrays :
    (∀ v₁ m₁ v₂ m₂, interfaceNames v₁ m₁ = interfaceNames v₂ m₂) ∧
    (∀ v₁ m₁ v₂ m₂, interfaceFNames v₁ m₁ = interfaceFNames v₂ m₂) ∧
    (∀ r₁ r₂ : darshan_file, interfaceNamesOfRecord r₁ = interfaceNamesOfRecord r₂) ∧
    (∀ v m, interfaceNames v m = darshan_names ∧ interfaceFNames v m = darshan_f_names) :=
  ⟨fun _ _ _ _ => rfl, fun _ _ _ _ => rfl, fun _ _ => rfl, fun _ _ => ⟨rfl, rfl⟩⟩

end Darshan
